import Mathlib

/-!
Verification of the logfire call-interception core (LLM-provider and tool
instrumentation) against its specification.

The definitions below are a shallow embedding of the Python source:

- `logfire/_internal/integrations/tools/function_call.py` (sensitive-parameter
  redaction inside `instrumented_execute`, install/uninstall of the patched
  `execute` method),
- `logfire/_internal/integrations/llm_providers/llm_provider.py`
  (`_instrumentation_setup`, `instrumented_llm_request_sync`,
  `record_streaming`, the instrumented stream classes, `uninstrument_context`),
- `logfire/_internal/integrations/tools/tool_provider.py` (install and revert
  of tool-provider methods, `_uninstrument_provider`),
- `logfire/_internal/integrations/tools/duckduckgo.py`
  (`create_instrumented_duckduckgo_method`).

External collaborators (the tracer backend, provider-specific accumulators,
the endpoint-config resolver, response objects) are opaque in the Python code
and are modelled as type parameters and function parameters.  Spans are
modelled as records of the data the wrapper writes into them.  Python
exceptions are modelled with `Except`: an `Except.error e` result stands for
the call raising the exception object `e`, so propagating the same `e`
models re-raising the identical exception.
-/

namespace Logfire

/-! ### Python string helpers used by `function_call.py` -/

/-- Model of Python `str.lower()` (attribute names are ASCII in practice). -/
def strToLower (s : String) : String := ⟨s.data.map Char.toLower⟩

/-- Whether `needle` occurs at the start of `hay` (on character lists). -/
def charsHasPre : List Char → List Char → Bool
  | [], _ => true
  | _ :: _, [] => false
  | a :: as, b :: bs => a = b && charsHasPre as bs

/-- Whether `needle` occurs anywhere inside `hay` (on character lists);
models the Python `needle in hay` test on strings. -/
def charsHasSub (needle : List Char) : List Char → Bool
  | [] => charsHasPre needle []
  | b :: bs => charsHasPre needle (b :: bs) || charsHasSub needle bs

/-- Model of Python `needle in hay` for strings. -/
def strHasSub (needle hay : String) : Bool := charsHasSub needle.data hay.data

/-! ### `function_call.py`: sensitive-parameter redaction (claim C10) -/

/-- Source constant `SENSITIVE_PARAM_NAMES` (function_call.py line 38). -/
def SENSITIVE_PARAM_NAMES : List String :=
  ["password", "token", "secret", "key", "auth", "credential"]

/-- Source function `_is_sensitive_param` (function_call.py lines 57-67):
`any(sensitive in param_name.lower() for sensitive in SENSITIVE_PARAM_NAMES)`. -/
def is_sensitive_param (param_name : String) : Bool :=
  SENSITIVE_PARAM_NAMES.any (fun sensitive => strHasSub sensitive (strToLower param_name))

/-- Python values that can appear as a tool-call argument.  The branch taken by
`instrumented_execute` distinguishes the scalar types `str`, `int`, `bool`,
`None` (stored as-is; Python `float` behaves like the other scalars and is
absorbed into `vstr` of its rendering for this model) from every other object,
for which only `str(type(v))` is stored.  `vother` carries the two renderings
the code can extract from such an object: `str(type(v))` and `str(v)`. -/
inductive PyVal where
  | vstr (s : String)
  | vint (n : Int)
  | vbool (b : Bool)
  | vnone
  | vother (typeName : String) (strRepr : String)
deriving DecidableEq

/-- Model of Python `str(v)` for the argument values above. -/
def pyStr : PyVal → String
  | PyVal.vstr s => s
  | PyVal.vint n => toString n
  | PyVal.vbool b => if b then "True" else "False"
  | PyVal.vnone => "None"
  | PyVal.vother _ r => r

/-- Span attribute values written by the wrappers. -/
inductive AttrVal where
  | aStr (s : String)
  | aInt (n : Int)
  | aBool (b : Bool)
  | aNone
deriving DecidableEq

/-- Python `arguments.get(k)` on the (insertion-ordered) argument dict,
modelled on an association list whose keys are unique (dict keys). -/
def dictGet (d : List (String × PyVal)) (k : String) : Option PyVal :=
  (d.find? (fun kv => kv.1 = k)).map (fun kv => kv.2)

/-- The parameter-attribute loop of `instrumented_execute`
(function_call.py lines 249-258): sensitive parameters are recorded as the
constant string `"[REDACTED]"`, scalars are stored as-is, and any other
value contributes only its type name under a `.type` suffix. -/
def paramAttrs (function_name : String) (arguments : List (String × PyVal)) :
    List (String × AttrVal) :=
  arguments.map (fun kv =>
    if is_sensitive_param kv.1 then
      (function_name ++ ".param." ++ kv.1, AttrVal.aStr "[REDACTED]")
    else
      match kv.2 with
      | PyVal.vstr s => (function_name ++ ".param." ++ kv.1, AttrVal.aStr s)
      | PyVal.vint n => (function_name ++ ".param." ++ kv.1, AttrVal.aInt n)
      | PyVal.vbool b => (function_name ++ ".param." ++ kv.1, AttrVal.aBool b)
      | PyVal.vnone => (function_name ++ ".param." ++ kv.1, AttrVal.aNone)
      | PyVal.vother t _ => (function_name ++ ".param." ++ kv.1 ++ ".type", AttrVal.aStr t))

/-- The span opened by `instrumented_execute` before calling the original
`execute` (function_call.py lines 237-258): its name, the `query` attribute,
the tags, and the per-parameter attributes. -/
structure ExecSpanRecord where
  span_name : String
  query_attr : String
  tags : List String
  param_attrs : List (String × AttrVal)
deriving DecidableEq

/-- Span construction in `instrumented_execute` (function_call.py 237-258):
`query = str(arguments.get('query', 'unknown'))`, the span name is
`"Tool <function_name> query: <query>"`, tags are `tags + ['FunctionCall']`,
and the parameter attributes are as in `paramAttrs`. -/
def instrumented_execute_span (function_name : String) (tags : List String)
    (arguments : List (String × PyVal)) : ExecSpanRecord :=
  let query := pyStr ((dictGet arguments "query").getD (PyVal.vstr "unknown"))
  { span_name := "Tool " ++ function_name ++ " query: " ++ query
    query_attr := query
    tags := tags ++ ["FunctionCall"]
    param_attrs := paramAttrs function_name arguments }

/-- Relation between two argument dicts that agree on all keys and on every
value whose key is not sensitive; values under sensitive keys may differ. -/
def ArgsAgreeExceptSensitive (args args' : List (String × PyVal)) : Prop :=
  List.Forall₂
    (fun kv kv' => kv.1 = kv'.1 ∧ (is_sensitive_param kv.1 = false → kv.2 = kv'.2))
    args args'

theorem paramAttrs_agree (function_name : String) :
    ∀ {args args' : List (String × PyVal)}, ArgsAgreeExceptSensitive args args' →
      paramAttrs function_name args = paramAttrs function_name args' := by
  intro args args' h
  induction h with
  | nil => rfl
  | @cons a a' l l' hd _ ih =>
    obtain ⟨hk, hv⟩ := hd
    simp only [paramAttrs] at ih
    simp only [paramAttrs, List.map_cons, List.cons.injEq]
    refine ⟨?_, ih⟩
    cases hs : is_sensitive_param a.1 with
    | false => rw [← hk, hv hs, hs]
    | true => rw [← hk]; simp [hs]

theorem dictGet_agree_nonsensitive (k : String) (hk : is_sensitive_param k = false) :
    ∀ {args args' : List (String × PyVal)}, ArgsAgreeExceptSensitive args args' →
      dictGet args k = dictGet args' k := by
  intro args args' h
  induction h with
  | nil => rfl
  | @cons a a' l l' hd _ ih =>
    obtain ⟨hkey, hv⟩ := hd
    by_cases he : a.1 = k
    · have hval : a.2 = a'.2 := hv (by rw [he]; exact hk)
      have ha : a = a' := Prod.ext_iff.mpr ⟨hkey, hval⟩
      simp only [dictGet]
      rw [List.find?_cons_of_pos _ (by simpa using he),
        List.find?_cons_of_pos _ (by simpa [← hkey] using he), ha]
    · have he' : ¬ a'.1 = k := by rw [← hkey]; exact he
      simp only [dictGet] at ih ⊢
      rw [List.find?_cons_of_neg _ (by simpa using he),
        List.find?_cons_of_neg _ (by simpa using he')]
      exact ih

/-- Claim C10: every argument whose name contains (case-insensitively) one of
the substrings in `SENSITIVE_PARAM_NAMES` is recorded on the span as the
constant string `"[REDACTED]"`, and two executions whose argument dicts agree
except on the values of sensitive-named arguments produce identical span
records, so a sensitive value never flows into the span. -/
theorem C10_sensitive_args_redacted (function_name : String) (tags : List String)
    (args args' : List (String × PyVal))
    (hagree : ArgsAgreeExceptSensitive args args') :
    instrumented_execute_span function_name tags args
      = instrumented_execute_span function_name tags args'
    ∧ ∀ kv ∈ args, is_sensitive_param kv.1 = true →
        (function_name ++ ".param." ++ kv.1, AttrVal.aStr "[REDACTED]")
          ∈ (instrumented_execute_span function_name tags args).param_attrs := by
  constructor
  · have hq : dictGet args "query" = dictGet args' "query" :=
      dictGet_agree_nonsensitive "query" (by decide) hagree
    have hp := paramAttrs_agree function_name hagree
    simp only [instrumented_execute_span, hq, hp]
  · intro kv hmem hs
    have h2 : (instrumented_execute_span function_name tags args).param_attrs
        = paramAttrs function_name args := rfl
    rw [h2]
    simp only [paramAttrs]
    exact List.mem_map.mpr ⟨kv, hmem, by simp [hs]⟩

/-- Witness for C10 at a concrete tool call: changing the value of the
`api_key` argument does not change the span record, and the `api_key`
parameter is recorded as `"[REDACTED]"`. -/
theorem C10_witness :
    instrumented_execute_span "web_search" ["Tool"]
        [("query", PyVal.vstr "lean"), ("api_key", PyVal.vstr "hunter2")]
      = instrumented_execute_span "web_search" ["Tool"]
        [("query", PyVal.vstr "lean"), ("api_key", PyVal.vstr "s3cr3t")]
    ∧ ("web_search.param.api_key", AttrVal.aStr "[REDACTED]")
        ∈ (instrumented_execute_span "web_search" ["Tool"]
            [("query", PyVal.vstr "lean"), ("api_key", PyVal.vstr "hunter2")]).param_attrs := by
  have h := C10_sensitive_args_redacted "web_search" ["Tool"]
    [("query", PyVal.vstr "lean"), ("api_key", PyVal.vstr "hunter2")]
    [("query", PyVal.vstr "lean"), ("api_key", PyVal.vstr "s3cr3t")]
    (List.Forall₂.cons ⟨rfl, fun _ => rfl⟩
      (List.Forall₂.cons ⟨rfl, fun hfalse => absurd hfalse (by decide)⟩ List.Forall₂.nil))
  exact ⟨h.1, h.2 ("api_key", PyVal.vstr "hunter2") (by decide) (by decide)⟩


/-! ### `llm_provider.py`: streaming (claims C4, C5, C9)

`LogfireInstrumentedStream.__stream__` (llm_provider.py lines 118-126) runs

    with logfire_llm.span(parent_message_template, **span_data) as parent_span:
        with record_streaming(...) as record_chunk:
            for chunk in super().__stream__():
                record_chunk(chunk)
                yield chunk

and `record_streaming` (lines 219-264) builds `record_chunk` as

    def record_chunk(chunk):
        if chunk:
            ... maybe set response_model on the parent span ...
            stream_state.record_chunk(chunk)

with a try/finally around `yield record_chunk`, whose finalize block computes
the duration, calls `stream_state.get_response_data()` and writes the
aggregate attributes and event onto the parent span.

In the model below the underlying stream produces the chunk list `prod` and
then either finishes or raises `perr`; the consumer pulls either every chunk
(`pulls = none`) or stops and closes the generator after `n` chunks
(`pulls = some n`, modelling early termination; the producer's trailing error
is then only reached if the producer ran out of chunks first).  The
provider-specific accumulator is `rc : σ → χ → Except ε σ`; an `Except.error`
result models `stream_state.record_chunk` itself raising (the source has no
try/except around it, so the loop aborts there).  `truthy` is the Python
truthiness of a chunk, `modelOf` extracts the optional model identifier
(`chunk.model` / `chunk['model']`), and `grd` is
`stream_state.get_response_data`. -/

/-- Observable events of one instrumented stream, in order. -/
inductive StreamEv (χ ω ε : Type) where
  | openSpan
  | modelAttr (m : String)
  | recorded (c : χ)
  | yielded (c : χ)
  | finalize (d : ω)
  | raised (e : ε)
  | closeSpan
deriving DecidableEq

/-- The `for chunk in super().__stream__(): record_chunk(chunk); yield chunk`
loop over the chunks the consumer actually pulls.  Returns the accumulator
state, the events, and the error raised by `stream_state.record_chunk` if it
raised (in which case the loop stops there). -/
def streamLoop {χ σ ω ε : Type} (truthy : χ → Bool) (modelOf : χ → Option String)
    (rc : σ → χ → Except ε σ) :
    σ → List χ → σ × List (StreamEv χ ω ε) × Option ε
  | st, [] => (st, [], none)
  | st, c :: rest =>
    if truthy c then
      let evs1 : List (StreamEv χ ω ε) :=
        match modelOf c with
        | some m => [StreamEv.modelAttr m]
        | none => []
      match rc st c with
      | Except.error e => (st, evs1, some e)
      | Except.ok st2 =>
        let r := streamLoop truthy modelOf rc st2 rest
        (r.1, evs1 ++ [StreamEv.recorded c, StreamEv.yielded c] ++ r.2.1, r.2.2)
    else
      let r := streamLoop truthy modelOf rc st rest
      (r.1, StreamEv.yielded c :: r.2.1, r.2.2)

/-- The chunks the consumer pulls from the producer before stopping. -/
def consumedChunks {χ : Type} (prod : List χ) (pulls : Option Nat) : List χ :=
  match pulls with
  | none => prod
  | some n => prod.take n

/-- Whether the producer's trailing error is reached: the consumer must pull
past the last produced chunk for the producer to raise. -/
def producerErrReached {ε : Type} (prodLen : Nat) (perr : Option ε) (pulls : Option Nat) :
    Option ε :=
  match pulls with
  | none => perr
  | some n => if prodLen < n then perr else none

/-- Result of one full instrumented stream: the event list and the exception
(if any) that propagates to the consumer after the stream scope unwinds. -/
structure StreamRun (χ ω ε : Type) where
  events : List (StreamEv χ ω ε)
  errOut : Option ε
deriving DecidableEq

/-- The exception the consumer of the instrumented stream observes: the
accumulator's own error if `stream_state.record_chunk` raised, otherwise the
producer's error when the consumer reached it. -/
def streamErrOut {χ σ ω ε : Type} (truthy : χ → Bool) (modelOf : χ → Option String)
    (rc : σ → χ → Except ε σ) (init : σ) (prod : List χ) (perr : Option ε)
    (pulls : Option Nat) : Option ε :=
  match (streamLoop (ω := ω) truthy modelOf rc init (consumedChunks prod pulls)).2.2 with
  | some e => some e
  | none => producerErrReached prod.length perr pulls

/-- The `raised` event emitted when an exception unwinds through the parent
span (which records it before closing), or nothing. -/
def errPartEvents {χ ω ε : Type} (errOut : Option ε) : List (StreamEv χ ω ε) :=
  match errOut with
  | some e => [StreamEv.raised e]
  | none => []

/-- One full run of `LogfireInstrumentedStream.__stream__`: open the parent
span, run the consumption loop, then — on every exit path, because
`record_streaming`'s finalize block is in a `finally:` and the parent span is
a context manager — run the finalize step, record a propagating exception on
the parent span, and close the span. -/
def runInstrumentedStream {χ σ ω ε : Type} (truthy : χ → Bool)
    (modelOf : χ → Option String) (rc : σ → χ → Except ε σ) (grd : σ → ω)
    (init : σ) (prod : List χ) (perr : Option ε) (pulls : Option Nat) :
    StreamRun χ ω ε :=
  let L := streamLoop truthy modelOf rc init (consumedChunks prod pulls)
  { events := StreamEv.openSpan :: L.2.1 ++ [StreamEv.finalize (grd L.1)] ++
      errPartEvents (streamErrOut (ω := ω) truthy modelOf rc init prod perr pulls) ++
      [StreamEv.closeSpan]
    errOut := streamErrOut (ω := ω) truthy modelOf rc init prod perr pulls }

/-- Does this event mark the finalize step? -/
def isFinalize {χ ω ε : Type} : StreamEv χ ω ε → Bool
  | StreamEv.finalize _ => true
  | _ => false

/-- The chunk fed to `stream_state.record_chunk` at this event, if any. -/
def recordedPayload {χ ω ε : Type} : StreamEv χ ω ε → Option χ
  | StreamEv.recorded c => some c
  | _ => none

/-- The response data the finalize step passed to the span, if this is the
finalize event. -/
def finalizePayload {χ ω ε : Type} : StreamEv χ ω ε → Option ω
  | StreamEv.finalize d => some d
  | _ => none

/-- Number of finalize events in an event list. -/
def countFinalize {χ ω ε : Type} (evs : List (StreamEv χ ω ε)) : Nat :=
  evs.countP isFinalize

/-- The chunks fed to `stream_state.record_chunk`, in order. -/
def recordedOf {χ ω ε : Type} (evs : List (StreamEv χ ω ε)) : List χ :=
  evs.filterMap recordedPayload

/-- The payload of the first finalize event, i.e. the response data the
finalize step passed to the parent span. -/
def finalizeData {χ ω ε : Type} (evs : List (StreamEv χ ω ε)) : Option ω :=
  (evs.filterMap finalizePayload).head?

theorem streamLoop_finalize_free {χ σ ω ε : Type} (truthy : χ → Bool)
    (modelOf : χ → Option String) (rc : σ → χ → Except ε σ) :
    ∀ (cs : List χ) (st : σ) (ev : StreamEv χ ω ε),
      ev ∈ (streamLoop truthy modelOf rc st cs).2.1 → isFinalize ev = false := by
  intro cs
  induction cs with
  | nil =>
    intro st ev h
    simp [streamLoop] at h
  | cons c rest ih =>
    intro st ev
    simp only [streamLoop]
    by_cases ht : truthy c
    · rw [if_pos ht]
      cases hrc : rc st c with
      | error e =>
        cases hm : modelOf c with
        | none => intro h; simp at h
        | some m =>
          intro h
          simp at h
          rw [h]; rfl
      | ok st2 =>
        cases hm : modelOf c with
        | none =>
          intro h
          simp at h
          rcases h with h | h | h
          · rw [h]; rfl
          · rw [h]; rfl
          · exact ih st2 ev h
        | some m =>
          intro h
          simp at h
          rcases h with h | h | h | h
          · rw [h]; rfl
          · rw [h]; rfl
          · rw [h]; rfl
          · exact ih st2 ev h
    · rw [if_neg ht]
      intro h
      simp at h
      rcases h with h | h
      · rw [h]; rfl
      · exact ih st ev h

theorem streamLoop_countFinalize {χ σ ω ε : Type} (truthy : χ → Bool)
    (modelOf : χ → Option String) (rc : σ → χ → Except ε σ) (cs : List χ) (st : σ) :
    countFinalize (streamLoop (ω := ω) truthy modelOf rc st cs).2.1 = 0 := by
  simp only [countFinalize]
  refine List.countP_eq_zero.mpr ?_
  intro a ha
  simp [streamLoop_finalize_free truthy modelOf rc cs st a ha]

theorem streamLoop_finalizeData {χ σ ω ε : Type} (truthy : χ → Bool)
    (modelOf : χ → Option String) (rc : σ → χ → Except ε σ) (cs : List χ) (st : σ) :
    (streamLoop (ω := ω) truthy modelOf rc st cs).2.1.filterMap finalizePayload = [] := by
  refine List.filterMap_eq_nil_iff.mpr ?_
  intro a ha
  have h := streamLoop_finalize_free truthy modelOf rc cs st a ha
  cases a <;> simp_all [isFinalize, finalizePayload]

theorem streamLoop_pure {χ σ ω ε : Type} (truthy : χ → Bool)
    (modelOf : χ → Option String) (f : σ → χ → σ) :
    ∀ (cs : List χ) (st : σ),
      (streamLoop (ω := ω) (ε := ε) truthy modelOf
          (fun s c => Except.ok (f s c)) st cs).2.2 = none
      ∧ (streamLoop (ω := ω) (ε := ε) truthy modelOf
          (fun s c => Except.ok (f s c)) st cs).1
        = cs.foldl (fun s c => if truthy c then f s c else s) st
      ∧ recordedOf (streamLoop (ω := ω) (ε := ε) truthy modelOf
          (fun s c => Except.ok (f s c)) st cs).2.1
        = cs.filter truthy := by
  intro cs
  induction cs with
  | nil => intro st; exact ⟨rfl, rfl, rfl⟩
  | cons c rest ih =>
    intro st
    simp only [streamLoop]
    by_cases ht : truthy c
    · rw [if_pos ht]
      obtain ⟨ih1, ih2, ih3⟩ := ih (f st c)
      cases hm : modelOf c with
      | none =>
        refine ⟨ih1, ?_, ?_⟩
        · rw [ih2]; simp [ht]
        · simp only [recordedOf, List.filterMap_append, List.filterMap_cons,
            List.filterMap_nil] at ih3 ⊢
          simp [recordedPayload, List.filter_cons, ht, ih3]
      | some m =>
        refine ⟨ih1, ?_, ?_⟩
        · rw [ih2]; simp [ht]
        · simp only [recordedOf, List.filterMap_append, List.filterMap_cons,
            List.filterMap_nil] at ih3 ⊢
          simp [recordedPayload, List.filter_cons, ht, ih3]
    · rw [if_neg ht]
      obtain ⟨ih1, ih2, ih3⟩ := ih st
      refine ⟨ih1, ?_, ?_⟩
      · rw [ih2]; simp [ht]
      · simp only [recordedOf, List.filterMap_cons] at ih3 ⊢
        simp [recordedPayload, List.filter_cons, ht, ih3]

theorem run_countFinalize_one {χ σ ω ε : Type} (truthy : χ → Bool)
    (modelOf : χ → Option String) (rc : σ → χ → Except ε σ) (grd : σ → ω)
    (init : σ) (prod : List χ) (perr : Option ε) (pulls : Option Nat) :
    countFinalize (runInstrumentedStream truthy modelOf rc grd init prod perr pulls).events
      = 1 := by
  have h0 := streamLoop_countFinalize (ω := ω) truthy modelOf rc (consumedChunks prod pulls) init
  simp only [countFinalize] at h0
  simp only [runInstrumentedStream, countFinalize, List.countP_cons, List.countP_append, h0]
  cases heo : streamErrOut (ω := ω) truthy modelOf rc init prod perr pulls <;>
    simp [errPartEvents, isFinalize]

/-- Claim C4: for every streaming call — whether the chunk sequence ends
normally, raises mid-stream, or is terminated early by the consumer — the
finalize step of `record_streaming` runs exactly once; whenever an error
propagates to the caller it is raised only after the finalize event and is
recorded on the parent span before the span closes; and a producer error
reached by a consumer that pulls the whole stream is propagated, never
swallowed (the accumulator itself not having raised first). -/
theorem C4_finalize_once {χ σ ω ε : Type} (truthy : χ → Bool)
    (modelOf : χ → Option String) (rc : σ → χ → Except ε σ) (grd : σ → ω)
    (init : σ) (prod : List χ) (perr : Option ε) (pulls : Option Nat) :
    countFinalize (runInstrumentedStream truthy modelOf rc grd init prod perr pulls).events
      = 1
    ∧ (∀ e, (runInstrumentedStream truthy modelOf rc grd init prod perr pulls).errOut
          = some e →
        ∃ pre d, (runInstrumentedStream truthy modelOf rc grd init prod perr pulls).events
          = pre ++ [StreamEv.finalize d, StreamEv.raised e, StreamEv.closeSpan])
    ∧ ((streamLoop (ω := ω) truthy modelOf rc init (consumedChunks prod pulls)).2.2 = none →
        pulls = none →
        (runInstrumentedStream truthy modelOf rc grd init prod perr pulls).errOut = perr) := by
  refine ⟨run_countFinalize_one truthy modelOf rc grd init prod perr pulls, ?_, ?_⟩
  · intro e he
    simp only [runInstrumentedStream] at he
    refine ⟨StreamEv.openSpan ::
      (streamLoop (ω := ω) truthy modelOf rc init (consumedChunks prod pulls)).2.1,
      grd (streamLoop (ω := ω) truthy modelOf rc init (consumedChunks prod pulls)).1, ?_⟩
    simp only [runInstrumentedStream, he, errPartEvents]
    simp
  · intro h1 h2
    subst h2
    simp only [runInstrumentedStream, streamErrOut, h1, producerErrReached]

/-- Witness for C4 at a concrete stream: two chunks followed by a producer
error, fully consumed; finalize is counted once and the error propagates. -/
theorem C4_witness :
    countFinalize (runInstrumentedStream (fun _ : Nat => true) (fun _ => none)
        (fun (s : Nat) (c : Nat) => Except.ok (s + c)) (fun s => s) 0
        [1, 2] (some "network error") none).events = 1
    ∧ (runInstrumentedStream (fun _ : Nat => true) (fun _ => none)
        (fun (s : Nat) (c : Nat) => Except.ok (s + c)) (fun s => s) 0
        [1, 2] (some "network error") none).errOut = some "network error" := by
  have h := C4_finalize_once (fun _ : Nat => true) (fun _ => none)
    (fun (s : Nat) (c : Nat) => Except.ok (s + c)) (fun s => s) 0
    [1, 2] (some "network error") none
  exact ⟨h.1, h.2.2 rfl rfl⟩

/-- Claim C5 (amended): every truthy chunk the consumer pulls is fed to
`stream_state.record_chunk` in strict arrival order — falsy chunks are
skipped by the `if chunk:` guard of `record_streaming.record_chunk` — and
the finalized response data equals sequentially folding the accumulator over
exactly the truthy consumed chunks in order. -/
theorem C5_streaming_fold {χ σ ω ε : Type} (truthy : χ → Bool)
    (modelOf : χ → Option String) (f : σ → χ → σ) (grd : σ → ω) (init : σ)
    (prod : List χ) (perr : Option ε) (pulls : Option Nat) :
    recordedOf (runInstrumentedStream truthy modelOf
        (fun s c => Except.ok (f s c)) grd init prod perr pulls).events
      = (consumedChunks prod pulls).filter truthy
    ∧ finalizeData (runInstrumentedStream truthy modelOf
        (fun s c => Except.ok (f s c)) grd init prod perr pulls).events
      = some (grd ((consumedChunks prod pulls).foldl
          (fun s c => if truthy c then f s c else s) init)) := by
  obtain ⟨h1, h2, h3⟩ :=
    streamLoop_pure (ω := ω) (ε := ε) truthy modelOf f (consumedChunks prod pulls) init
  have hfd := streamLoop_finalizeData (ω := ω) (ε := ε) truthy modelOf
    (fun s c => Except.ok (f s c)) (consumedChunks prod pulls) init
  simp only [recordedOf] at h3
  constructor
  · simp only [runInstrumentedStream, recordedOf, List.filterMap_cons, List.filterMap_append,
      recordedPayload, h3]
    cases heo : streamErrOut (ω := ω) truthy modelOf
        (fun s c => Except.ok (f s c)) init prod perr pulls <;>
      simp [errPartEvents, recordedPayload]
  · simp only [runInstrumentedStream, finalizeData, List.filterMap_cons, List.filterMap_append,
      finalizePayload, hfd, h2]
    cases heo : streamErrOut (ω := ω) truthy modelOf
        (fun s c => Except.ok (f s c)) init prod perr pulls <;>
      simp [errPartEvents, finalizePayload]

/-- Counterexample to C5 as stated: with a falsy (`None`-like) chunk in the
stream and an accumulator that counts the chunks it is fed, the finalized
response data differs from folding `record_chunk` over exactly the produced
chunks, because `record_streaming.record_chunk` skips falsy chunks
(the `if chunk:` guard at llm_provider.py line 229). -/
theorem C5_counterexample :
    finalizeData (runInstrumentedStream (fun c : Option Nat => c.isSome) (fun _ => none)
        (fun (s : Nat) (_ : Option Nat) => Except.ok (s + 1)) (fun s => s) 0
        [some 1, none, some 2] (none : Option Unit) none).events
      ≠ some ([some 1, none, some 2].foldl (fun (s : Nat) (_ : Option Nat) => s + 1) 0) := by
  decide

/-- Claim C9 (amended): an exception raised by the streaming bookkeeping
itself (`stream_state.record_chunk`) is not caught: the consumption loop
aborts there, the finalize block still runs (exactly once, on the partial
state), and the bookkeeping exception propagates to the caller as the
stream's outcome. -/
theorem C9_bookkeeping_error_propagates {χ σ ω ε : Type} (truthy : χ → Bool)
    (modelOf : χ → Option String) (rc : σ → χ → Except ε σ) (grd : σ → ω)
    (init : σ) (prod : List χ) (perr : Option ε) (pulls : Option Nat) (e : ε)
    (h : (streamLoop (ω := ω) truthy modelOf rc init (consumedChunks prod pulls)).2.2
      = some e) :
    (runInstrumentedStream truthy modelOf rc grd init prod perr pulls).errOut = some e
    ∧ countFinalize
        (runInstrumentedStream truthy modelOf rc grd init prod perr pulls).events = 1 := by
  constructor
  · simp only [runInstrumentedStream, streamErrOut, h]
  · exact run_countFinalize_one truthy modelOf rc grd init prod perr pulls

/-- Witness for the amended C9 at a concrete stream whose accumulator raises
on the first chunk. -/
theorem C9_witness :
    (runInstrumentedStream (fun _ : Nat => true) (fun _ => none)
        (fun (_ : Unit) (_ : Nat) => Except.error "boom") (fun _ => (0 : Nat)) ()
        [5, 6] (none : Option String) none).errOut = some "boom"
    ∧ countFinalize (runInstrumentedStream (fun _ : Nat => true) (fun _ => none)
        (fun (_ : Unit) (_ : Nat) => Except.error "boom") (fun _ => (0 : Nat)) ()
        [5, 6] (none : Option String) none).events = 1 := by
  exact C9_bookkeeping_error_propagates (fun _ : Nat => true) (fun _ => none)
    (fun (_ : Unit) (_ : Nat) => Except.error "boom") (fun _ => (0 : Nat)) ()
    [5, 6] (none : Option String) none "boom" rfl

/-- Counterexample to C9 as stated: an exception raised by
`stream_state.record_chunk` (bookkeeping) becomes the caller-visible outcome
of the stream, although the uninstrumented stream would have delivered its
chunks without any error. -/
theorem C9_counterexample :
    (runInstrumentedStream (fun _ : Nat => true) (fun _ => none)
        (fun (_ : Unit) (_ : Nat) => Except.error "record_chunk bug") (fun _ => (0 : Nat)) ()
        [5] (none : Option String) none).errOut = some "record_chunk bug"
    ∧ producerErrReached 1 (none : Option String) none = none := by
  exact ⟨rfl, rfl⟩

/-! ### `llm_provider.py`: the sync request wrapper (claims C1, C2, C8)

`_instrumentation_setup` (llm_provider.py lines 79-130) and
`instrumented_llm_request_sync` (lines 135-159) are modelled next.  The
endpoint-config resolver `get_endpoint_config_fn` may itself raise (modelled
by `Except.error`); the source calls it with no try/except, so such an error
propagates.  `span_data` is an opaque dict `δ` with the three accesses the
source performs on it (`span_data['async'] = is_async`,
`span_data.get('request_data', \x7b\x7d).get('model', 'unknown')`, and storing
`parent_message_template`) supplied as functions.  The async variant
`instrumented_llm_request_async` (lines 161-185) is textually identical to
the sync one apart from `await`, so this model covers both.  The
`maybe_suppress_instrumentation(suppress_otel)` scope around the inner call
only affects nested instrumented calls, which are outside this model. -/

/-- The keyword arguments of one `_request` invocation: the per-call
`options` (type `θ`), the `stream` flag, and the optional `stream_cls`
(type `ψ`). -/
structure Kwargs (θ ψ : Type) where
  options : θ
  stream : Bool
  stream_cls : Option ψ
deriving DecidableEq

/-- The `EndpointConfig` tuple returned by the resolver: the message
template (a string or `None`), the initial span data, and the optional
stream-state class. -/
structure EndpointConfig (δ τ : Type) where
  message_template : Option String
  span_data : δ
  stream_state_cls : Option τ

/-- Python truthiness test `not message_template` on an optional string. -/
def templateFalsy : Option String → Bool
  | none => true
  | some s => s = ""

/-- The parent message template built by `_instrumentation_setup`
(llm_provider.py lines 90-95). -/
def parentMessageTemplate (llm_name : String) (stream : Bool) (model_name : String) :
    String :=
  if stream then "LLM " ++ llm_name ++ " Stream Call: " ++ model_name
  else "LLM " ++ llm_name ++ " Call: " ++ model_name

/-- The closure context of one `instrument_llm_provider` installation:
everything `instrumented_llm_request_sync` captures.  `assertionErr` is the
`AssertionError` of the `assert stream_cls is not None` at line 101;
`wrapStreamCls` models replacing `kwargs['stream_cls']` by the
`LogfireInstrumentedStream` subclass (lines 99-128); `responseModel` models
reading `response.model` / `response['model']` (lines 154-158). -/
structure LLMInstrArgs (θ ψ δ τ ε ρ : Type) where
  is_async : Bool
  llm_name : String
  suppress_otel : Bool
  get_endpoint_config_fn : θ → Except ε (EndpointConfig δ τ)
  assertionErr : ε
  setAsync : δ → Bool → δ
  modelName : δ → String
  setParentTpl : δ → String → δ
  wrapStreamCls : ψ → ψ
  original_request_method : Kwargs θ ψ → Except ε ρ
  responseModel : ρ → Option String
  on_response_fn : ρ → ρ

/-- Model of `_instrumentation_setup` (llm_provider.py lines 79-130).
Returns `none` for the message-template/span-data pair when the call must
not be instrumented (suppressed, or falsy template), mirroring the source's
`return None, None, kwargs`; otherwise it returns the message template, the
parent message template, the enriched span data, and the (possibly
`stream_cls`-patched) kwargs. -/
def instrumentation_setup {θ ψ δ τ ε ρ : Type} (A : LLMInstrArgs θ ψ δ τ ε ρ)
    (suppressed : Bool) (kw : Kwargs θ ψ) :
    Except ε (Option (String × String × δ) × Kwargs θ ψ) :=
  if suppressed then Except.ok (none, kw)
  else
    match A.get_endpoint_config_fn kw.options with
    | Except.error e => Except.error e
    | Except.ok cfg =>
      if templateFalsy cfg.message_template then Except.ok (none, kw)
      else
        let sd0 := A.setAsync cfg.span_data A.is_async
        let tpl := parentMessageTemplate A.llm_name kw.stream (A.modelName sd0)
        let sd := A.setParentTpl sd0 tpl
        if kw.stream && cfg.stream_state_cls.isSome then
          match kw.stream_cls with
          | none => Except.error A.assertionErr
          | some sc =>
            Except.ok (some (cfg.message_template.getD "", tpl, sd),
              { kw with stream_cls := some (A.wrapStreamCls sc) })
        else
          Except.ok (some (cfg.message_template.getD "", tpl, sd), kw)

/-- The span opened and closed by the non-streaming branch of
`instrumented_llm_request_sync`. -/
structure LLMSpanRecord (δ ε : Type) where
  template : String
  span_data : δ
  response_model : Option String
  recorded_exc : Option ε
deriving DecidableEq

/-- Everything observable about one invocation of the instrumented request
method: the value returned (or exception raised) to the caller, the spans
this wrapper opened and closed, and the invocations of the original request
method with their arguments. -/
structure SyncCallOutcome (θ ψ δ ε ρ : Type) where
  outcome : Except ε ρ
  spans : List (LLMSpanRecord δ ε)
  calls : List (Kwargs θ ψ)

/-- Model of `instrumented_llm_request_sync` (llm_provider.py lines
135-159).  Passthrough when setup returned no template (suppressed or falsy
template): the original method is called with the unmodified kwargs and no
span is created.  Streaming: the original is called (with `stream_cls`
patched); the parent span is created inside the instrumented stream class
when the stream is consumed, not here.  Non-streaming: one span is opened,
the original runs inside it, a `response_model` attribute may be set, and
an exception from the original is recorded on the span (by the span context
manager) and re-raised unchanged after the span closes. -/
def instrumented_llm_request_sync {θ ψ δ τ ε ρ : Type} (A : LLMInstrArgs θ ψ δ τ ε ρ)
    (suppressed : Bool) (kw : Kwargs θ ψ) : SyncCallOutcome θ ψ δ ε ρ :=
  match instrumentation_setup A suppressed kw with
  | Except.error e => { outcome := Except.error e, spans := [], calls := [] }
  | Except.ok (none, kw2) =>
    { outcome := A.original_request_method kw2, spans := [], calls := [kw2] }
  | Except.ok (some td, kw2) =>
    if kw2.stream then
      { outcome := A.original_request_method kw2, spans := [], calls := [kw2] }
    else
      match A.original_request_method kw2 with
      | Except.error e =>
        { outcome := Except.error e
          spans := [⟨td.2.1, td.2.2, none, some e⟩]
          calls := [kw2] }
      | Except.ok resp =>
        { outcome := Except.ok (A.on_response_fn resp)
          spans := [⟨td.2.1, td.2.2, A.responseModel resp, none⟩]
          calls := [kw2] }

/-! ### `duckduckgo.py`: the instrumented tool method (claims C1, C2) -/

/-- The span opened by `create_instrumented_duckduckgo_method.wrapper`
(duckduckgo.py lines 124-161). -/
structure DDGSpanRecord (ε : Type) where
  span_name : String
  query : String
  tags : List String
  result_attrs : List (String × String)
  recorded_exc : Option ε
deriving DecidableEq

/-- Observable result of one instrumented DuckDuckGo method call. -/
structure DDGCallOutcome (ε ρ : Type) where
  outcome : Except ε ρ
  span : DDGSpanRecord ε
  callCount : Nat

/-- Model of `create_instrumented_duckduckgo_method.wrapper` (duckduckgo.py
lines 124-161): extract the query (falling back to `"unknown"` when falsy),
open the span, call the original exactly once; on success process the result
into attributes (`resultAttrs` abstracts `_process_result` and the
summary/preview logic), on exception record the exception on the span
(`span.record_exception(e)` at line 159) and re-raise it unchanged. -/
def ddg_wrapper {α ε ρ : Type} (original_func : α → Except ε ρ) (span_name : String)
    (tags : List String) (queryOf : α → Option String)
    (resultAttrs : ρ → List (String × String)) (a : α) : DDGCallOutcome ε ρ :=
  let query :=
    match queryOf a with
    | none => "unknown"
    | some s => if s = "" then "unknown" else s
  match original_func a with
  | Except.error e =>
    { outcome := Except.error e
      span := ⟨span_name, query, ["Tool", "DuckDuckGo"] ++ tags, [], some e⟩
      callCount := 1 }
  | Except.ok r =>
    { outcome := Except.ok r
      span := ⟨span_name, query, ["Tool", "DuckDuckGo"] ++ tags, resultAttrs r, none⟩
      callCount := 1 }

/-- Claim C1: for an instrumented call (the LLM request wrapper or an
instrumented DuckDuckGo tool method), the underlying callable is invoked at
most once (never retried), and when that invocation raises `E` the caller of
the instrumented method observes exactly `E` — the same exception value —
after span bookkeeping; the DuckDuckGo wrapper also records that same
exception on its span. -/
theorem C1_exception_transparency {θ ψ δ τ ε ρ α φ π : Type}
    (A : LLMInstrArgs θ ψ δ τ ε ρ) (suppressed : Bool) (kw : Kwargs θ ψ)
    (original_func : α → Except φ π) (span_name : String) (tags : List String)
    (queryOf : α → Option String) (resultAttrs : π → List (String × String)) (a : α) :
    (instrumented_llm_request_sync A suppressed kw).calls.length ≤ 1
    ∧ (∀ kw2 e, (instrumented_llm_request_sync A suppressed kw).calls = [kw2] →
        A.original_request_method kw2 = Except.error e →
        (instrumented_llm_request_sync A suppressed kw).outcome = Except.error e)
    ∧ (∀ e, original_func a = Except.error e →
        (ddg_wrapper original_func span_name tags queryOf resultAttrs a).outcome
            = Except.error e
        ∧ (ddg_wrapper original_func span_name tags queryOf resultAttrs a).span.recorded_exc
            = some e
        ∧ (ddg_wrapper original_func span_name tags queryOf resultAttrs a).callCount = 1) := by
  refine ⟨?_, ?_, ?_⟩
  · simp only [instrumented_llm_request_sync]
    cases hset : instrumentation_setup A suppressed kw with
    | error e => simp
    | ok p =>
      obtain ⟨mt, kw3⟩ := p
      cases mt with
      | none => simp
      | some td =>
        by_cases hs : kw3.stream
        · simp [hs]
        · cases horig : A.original_request_method kw3 <;> simp [hs, horig]
  · intro kw2 e hcalls horig
    simp only [instrumented_llm_request_sync] at hcalls ⊢
    cases hset : instrumentation_setup A suppressed kw with
    | error e2 =>
      rw [hset] at hcalls
      simp at hcalls
    | ok p =>
      obtain ⟨mt, kw3⟩ := p
      rw [hset] at hcalls
      cases mt with
      | none =>
        simp at hcalls
        rw [← hcalls] at horig
        simp [horig]
      | some td =>
        by_cases hs : kw3.stream
        · simp [hs] at hcalls
          rw [← hcalls] at horig
          simp [hs, horig]
        · cases horig2 : A.original_request_method kw3 with
          | error e3 =>
            simp [hs, horig2] at hcalls
            rw [← hcalls] at horig
            rw [horig2] at horig
            injection horig with he
            simp [hs, horig2, he]
          | ok r =>
            simp [hs, horig2] at hcalls
            rw [← hcalls] at horig
            rw [horig2] at horig
            exact absurd horig (by simp)
  · intro e he
    simp [ddg_wrapper, he]

/-- Claim C2: when instrumentation is suppressed or the resolver returns the
"do not instrument" sentinel (falsy message template), no span is created
and the original request method is invoked once with the unmodified
arguments; its return value or exception is exactly the uninstrumented
call's. -/
theorem C2_passthrough {θ ψ δ τ ε ρ : Type} (A : LLMInstrArgs θ ψ δ τ ε ρ)
    (suppressed : Bool) (kw : Kwargs θ ψ)
    (h : suppressed = true ∨
      ∃ cfg, A.get_endpoint_config_fn kw.options = Except.ok cfg
        ∧ templateFalsy cfg.message_template = true) :
    (instrumented_llm_request_sync A suppressed kw).outcome
        = A.original_request_method kw
    ∧ (instrumented_llm_request_sync A suppressed kw).calls = [kw]
    ∧ (instrumented_llm_request_sync A suppressed kw).spans = [] := by
  have hset : instrumentation_setup A suppressed kw = Except.ok (none, kw) := by
    rcases h with h | ⟨cfg, hres, htpl⟩
    · simp [instrumentation_setup, h]
    · cases hsup : suppressed with
      | true => simp [instrumentation_setup]
      | false => simp [instrumentation_setup, hres, htpl]
  simp [instrumented_llm_request_sync, hset]

/-- A concrete instrumented client whose endpoint-config resolver raises. -/
def failingResolverArgs : LLMInstrArgs Unit Unit Unit Unit String Nat :=
  { is_async := false
    llm_name := "OpenAI"
    suppress_otel := false
    get_endpoint_config_fn := fun _ => Except.error "resolver boom"
    assertionErr := "assertion failed"
    setAsync := fun d _ => d
    modelName := fun _ => "unknown"
    setParentTpl := fun d _ => d
    wrapStreamCls := fun s => s
    original_request_method := fun _ => Except.ok 42
    responseModel := fun _ => none
    on_response_fn := fun r => r }

/-- Witness for C2 at a concrete suppressed call: the result is the
original's value, the original is called once with the unmodified kwargs,
and no span is created. -/
theorem C2_witness :
    (instrumented_llm_request_sync failingResolverArgs true ⟨(), false, none⟩).outcome
        = Except.ok 42
    ∧ (instrumented_llm_request_sync failingResolverArgs true ⟨(), false, none⟩).calls
        = [⟨(), false, none⟩]
    ∧ (instrumented_llm_request_sync failingResolverArgs true ⟨(), false, none⟩).spans
        = [] := by
  have h := C2_passthrough failingResolverArgs true ⟨(), false, none⟩ (Or.inl rfl)
  exact ⟨h.1.trans rfl, h.2.1, h.2.2⟩

/-- Claim C8 (amended): when the endpoint-config resolver raises, its
exception propagates to the caller of the instrumented method; the original
request method is never invoked and no span is created.  Passthrough happens
only when the resolver returns the absent-template sentinel. -/
theorem C8_resolver_error_propagates {θ ψ δ τ ε ρ : Type} (A : LLMInstrArgs θ ψ δ τ ε ρ)
    (kw : Kwargs θ ψ) (e : ε)
    (hres : A.get_endpoint_config_fn kw.options = Except.error e) :
    (instrumented_llm_request_sync A false kw).outcome = Except.error e
    ∧ (instrumented_llm_request_sync A false kw).calls = []
    ∧ (instrumented_llm_request_sync A false kw).spans = [] := by
  have hset : instrumentation_setup A false kw = Except.error e := by
    simp [instrumentation_setup, hres]
  simp [instrumented_llm_request_sync, hset]

/-- Witness for the amended C8 at the concrete failing resolver. -/
theorem C8_witness :
    (instrumented_llm_request_sync failingResolverArgs false ⟨(), false, none⟩).spans = []
    ∧ (instrumented_llm_request_sync failingResolverArgs false ⟨(), false, none⟩).calls
        = [] := by
  have h := C8_resolver_error_propagates failingResolverArgs ⟨(), false, none⟩
    "resolver boom" rfl
  exact ⟨h.2.2, h.2.1⟩

/-- Counterexample to C8 as stated: a resolver exception is neither logged
nor swallowed — it surfaces to the caller unchanged while the original
method is never run, contradicting "the failure is logged and the call
proceeds unwrapped as a passthrough". -/
theorem C8_counterexample :
    (instrumented_llm_request_sync failingResolverArgs false ⟨(), false, none⟩).outcome
        = Except.error "resolver boom"
    ∧ (instrumented_llm_request_sync failingResolverArgs false ⟨(), false, none⟩).calls
        = [] := by
  exact ⟨rfl, rfl⟩

/-- A concrete instrumented client whose original request method raises. -/
def erroringCallArgs : LLMInstrArgs Unit Unit Unit Unit String Nat :=
  { is_async := false
    llm_name := "OpenAI"
    suppress_otel := false
    get_endpoint_config_fn := fun _ =>
      Except.ok ⟨some "Chat Completion", (), none⟩
    assertionErr := "assertion failed"
    setAsync := fun d _ => d
    modelName := fun _ => "unknown"
    setParentTpl := fun d _ => d
    wrapStreamCls := fun s => s
    original_request_method := fun _ => Except.error "api down"
    responseModel := fun _ => none
    on_response_fn := fun r => r }

/-- Witness for C1 at a concrete erroring LLM call and a concrete erroring
DuckDuckGo call. -/
theorem C1_witness :
    (instrumented_llm_request_sync erroringCallArgs false ⟨(), false, none⟩).outcome
        = Except.error "api down"
    ∧ (ddg_wrapper (fun _ : Unit => (Except.error "rate limited" : Except String Nat))
        "DuckDuckGo Search" ["Search"] (fun _ => some "q") (fun _ => []) ()).outcome
        = Except.error "rate limited"
    ∧ (ddg_wrapper (fun _ : Unit => (Except.error "rate limited" : Except String Nat))
        "DuckDuckGo Search" ["Search"] (fun _ => some "q") (fun _ => []) ()).span.recorded_exc
        = some "rate limited" := by
  have h := C1_exception_transparency erroringCallArgs false ⟨(), false, none⟩
    (fun _ : Unit => (Except.error "rate limited" : Except String Nat))
    "DuckDuckGo Search" ["Search"] (fun _ => some "q") (fun _ => []) ()
  refine ⟨h.2.1 ⟨(), false, none⟩ "api down" rfl rfl, ?_, ?_⟩
  · exact (h.2.2 "rate limited" rfl).1
  · exact (h.2.2 "rate limited" rfl).2.1

/-! ### Interception manager: install and revert (claims C3, C6, C7) -/

/-- An LLM client as the instrumentation sees it: the
`_is_instrumented_by_logfire` flag (Python's `getattr(..., False)` makes an
absent attribute behave as `false`), the current `_request` callable
(identified by a value of type `μ`), and the stored
`_original_request_method` attribute (`none` when absent). -/
structure LLMClient (μ : Type) where
  is_instrumented_by_logfire : Bool
  request : μ
  original_request_method : Option μ
deriving DecidableEq

/-- The context manager returned by `instrument_llm_provider` for one
client: `nullcontext()` (llm_provider.py line 67) when the client was
already instrumented, else `uninstrument_context()` (lines 192-207). -/
inductive LLMRevert where
  | nullcontext
  | uninstrument
deriving DecidableEq

/-- Model of `instrument_llm_provider` on a single client (llm_provider.py
lines 65-72, 187-190, 207): no-op with a trivial handle when the flag is
set; otherwise set the flag, store the original `_request`, patch `_request`
with the instrumented wrapper (`wrap` builds it from the original), and
return the revert handle. -/
def instrument_llm_provider_one {μ : Type} (wrap : μ → μ) (c : LLMClient μ) :
    LLMClient μ × LLMRevert :=
  if c.is_instrumented_by_logfire then (c, LLMRevert.nullcontext)
  else
    ({ is_instrumented_by_logfire := true
       request := wrap c.request
       original_request_method := some c.request }, LLMRevert.uninstrument)

/-- Model of exiting the returned context manager (llm_provider.py lines
200-205): restore `_request` from `_original_request_method` (raising
`AttributeError`, modelled as `Except.error ()`, when that attribute is
absent, e.g. after external mutation), delete the stored original and clear
the flag; `nullcontext` does nothing. -/
def applyLLMRevert {μ : Type} : LLMRevert → LLMClient μ → Except Unit (LLMClient μ)
  | LLMRevert.nullcontext, c => Except.ok c
  | LLMRevert.uninstrument, c =>
    match c.original_request_method with
    | none => Except.error ()
    | some o =>
      Except.ok { is_instrumented_by_logfire := false
                  request := o
                  original_request_method := none }

/-- Model of the iterable branch of `instrument_llm_provider`
(llm_provider.py lines 39-54): each client is instrumented independently,
eagerly, in order. -/
def instrument_llm_provider_many {μ : Type} (wrap : μ → μ) (cs : List (LLMClient μ)) :
    List (LLMClient μ × LLMRevert) :=
  cs.map (instrument_llm_provider_one wrap)

/-- Observable outcome of exiting the combined context manager: the clients
after the unwind (in installation order), the clients whose revert was
attempted (in attempt order), the exceptions collected during the unwind
(ExitStack chains and re-raises them to the invoker at the end), and the
messages logged (none on this path: `uninstrument_context` at
llm_provider.py lines 192-207 contains no logging call). -/
structure BatchRevertResult (μ : Type) where
  finalClients : List (LLMClient μ)
  attempted : List (LLMClient μ)
  raised : List Unit
  logs : List String
deriving DecidableEq

/-- One `ExitStack` unwind step: attempt the revert; on failure keep the
client as it was, collect the exception and keep unwinding. -/
def exitStackStep {μ : Type} (acc : BatchRevertResult μ) (cr : LLMClient μ × LLMRevert) :
    BatchRevertResult μ :=
  match applyLLMRevert cr.2 cr.1 with
  | Except.ok c2 =>
    { acc with finalClients := c2 :: acc.finalClients, attempted := acc.attempted ++ [cr.1] }
  | Except.error e =>
    { acc with finalClients := cr.1 :: acc.finalClients
               attempted := acc.attempted ++ [cr.1]
               raised := acc.raised ++ [e] }

/-- Model of exiting the combined context manager built with `ExitStack`
(llm_provider.py lines 56-63): the per-client context managers entered in
installation order are exited in reverse order; a failing exit does not stop
the unwind. -/
def exitStackRevert {μ : Type} (items : List (LLMClient μ × LLMRevert)) :
    BatchRevertResult μ :=
  items.reverse.foldl exitStackStep
    { finalClients := [], attempted := [], raised := [], logs := [] }

/-- The client state after its individual revert is attempted: restored on
success, unchanged on failure. -/
def revertedClient {μ : Type} (cr : LLMClient μ × LLMRevert) : LLMClient μ :=
  match applyLLMRevert cr.2 cr.1 with
  | Except.ok c2 => c2
  | Except.error _ => cr.1

/-- The exception an individual revert raises, if any. -/
def revertFailure {μ : Type} (cr : LLMClient μ × LLMRevert) : Option Unit :=
  match applyLLMRevert cr.2 cr.1 with
  | Except.ok _ => none
  | Except.error e => some e

/-- A tool provider: the `_is_instrumented_by_logfire_tools` flag and the
method attributes (name to callable identity); attribute names are unique. -/
structure ToolProvider (μ : Type) where
  is_instrumented_by_logfire_tools : Bool
  methods : List (String × μ)
deriving DecidableEq

/-- Python `getattr(tool_provider, n)` restricted to the modelled methods. -/
def getAttr {μ : Type} (p : ToolProvider μ) (n : String) : Option μ :=
  (p.methods.find? (fun kv => kv.1 = n)).map (fun kv => kv.2)

/-- Python `setattr(tool_provider, n, f)`: replace the attribute in place if
present, create it otherwise. -/
def setAttr {μ : Type} (p : ToolProvider μ) (n : String) (f : μ) : ToolProvider μ :=
  if (p.methods.find? (fun kv => kv.1 = n)).isSome then
    { p with methods := p.methods.map (fun kv => if kv.1 = n then (n, f) else kv) }
  else
    { p with methods := p.methods ++ [(n, f)] }

/-- One tool configuration (types.py `ToolConfig`): the method name and the
instrumented function that replaces the original. -/
structure ToolCfg (μ : Type) where
  name : String
  instrumented_function : μ
deriving DecidableEq

/-- Python dict assignment `original_functions[n] = v` on an
insertion-ordered association list. -/
def dictInsert {μ : Type} (d : List (String × μ)) (n : String) (v : μ) :
    List (String × μ) :=
  if (d.find? (fun kv => kv.1 = n)).isSome then
    d.map (fun kv => if kv.1 = n then (n, v) else kv)
  else d ++ [(n, v)]

/-- Model of `_instrument_single_tool` (tool_provider.py lines 135-177):
skip (with a logged warning) configs whose method is absent on the provider;
otherwise store the original in `original_functions` and replace the
attribute with the instrumented function.  (The instance/class branch at
lines 164-170 ends in the same `setattr` either way; the optional Toolkit
`functions` dict handled by `_instrument_function_object` is outside the
modelled state.) -/
def instrument_single_tool {μ : Type} (st : ToolProvider μ × List (String × μ))
    (cfg : ToolCfg μ) : ToolProvider μ × List (String × μ) :=
  match getAttr st.1 cfg.name with
  | none => st
  | some orig =>
    (setAttr st.1 cfg.name cfg.instrumented_function, dictInsert st.2 cfg.name orig)

/-- The revert handle returned by `instrument_tool_provider`:
`nullcontext()` (tool_provider.py line 86) or the uninstrumentation context
carrying `original_functions` (lines 248-274). -/
inductive ToolRevert (μ : Type) where
  | nullcontext
  | uninstr (origs : List (String × μ))
deriving DecidableEq

/-- Model of `instrument_tool_provider` on a single provider
(tool_provider.py lines 53-97): no-op with a trivial handle when the flag is
set; otherwise set the flag, instrument each configured tool in order, and
return the revert handle holding `original_functions`. -/
def instrument_tool_provider {μ : Type} (configs : List (ToolCfg μ))
    (p : ToolProvider μ) : ToolProvider μ × ToolRevert μ :=
  if p.is_instrumented_by_logfire_tools then (p, ToolRevert.nullcontext)
  else
    let st := configs.foldl instrument_single_tool
      ({ p with is_instrumented_by_logfire_tools := true }, [])
    (st.1, ToolRevert.uninstr st.2)

/-- Model of `_uninstrument_provider` (tool_provider.py lines 277-298):
restore every stored original in insertion order, logging (and continuing
past) any restore failure, then clear the flag.  `setFails n = true` models
`setattr` raising for attribute `n` (e.g. the target mutated externally). -/
def uninstrument_provider {μ : Type} (setFails : String → Bool) (p : ToolProvider μ)
    (origs : List (String × μ)) : ToolProvider μ × List String :=
  let st := origs.foldl
    (fun acc kv =>
      if setFails kv.1 then
        (acc.1, acc.2 ++ ["Failed to restore original function " ++ kv.1])
      else (setAttr acc.1 kv.1 kv.2, acc.2))
    (p, [])
  ({ st.1 with is_instrumented_by_logfire_tools := false }, st.2)

/-- Exiting the tool-provider revert handle (tool_provider.py lines
261-274). -/
def applyToolRevert {μ : Type} (setFails : String → Bool) :
    ToolRevert μ → ToolProvider μ → ToolProvider μ × List String
  | ToolRevert.nullcontext, p => (p, [])
  | ToolRevert.uninstr origs, p => uninstrument_provider setFails p origs

/-- Restoring the stored originals, in insertion order, when no `setattr`
fails (the pure part of `_uninstrument_provider`). -/
def restoreFold {μ : Type} (origs : List (String × μ)) (p : ToolProvider μ) :
    ToolProvider μ :=
  origs.foldl (fun q kv => setAttr q kv.1 kv.2) p

/-- A FunctionCall class as `instrument_function_call` sees it
(function_call.py lines 290-341): the optional `execute` attribute, the
instrumented flag, and the optional stored `_original_execute`. -/
structure FunctionCallClass (μ : Type) where
  execute : Option μ
  is_instrumented_by_logfire : Bool
  original_execute : Option μ
deriving DecidableEq

/-- Model of `instrument_function_call` (function_call.py lines 290-341):
`AttributeError` when the class has no `execute`; no-op returning the class
unchanged when already instrumented; otherwise patch `execute` with the
instrumented version built from the original, set the flag and store the
original. -/
def instrument_function_call {μ : Type} (mkInstr : μ → μ) (fc : FunctionCallClass μ) :
    Except Unit (FunctionCallClass μ) :=
  match fc.execute with
  | none => Except.error ()
  | some ex =>
    if fc.is_instrumented_by_logfire then Except.ok fc
    else
      Except.ok { execute := some (mkInstr ex)
                  is_instrumented_by_logfire := true
                  original_execute := some ex }

/-- Model of `uninstrument_function_call` (function_call.py lines 344-381):
no-op when not instrumented; otherwise restore `execute` from
`_original_execute` and delete the flag and the stored original (the
`AttributeError` raised when the stored original is absent is caught and
logged before anything was mutated, leaving the class as it was). -/
def uninstrument_function_call {μ : Type} (fc : FunctionCallClass μ) :
    FunctionCallClass μ :=
  if fc.is_instrumented_by_logfire then
    match fc.original_execute with
    | none => fc
    | some orig =>
      { execute := some orig, is_instrumented_by_logfire := false, original_execute := none }
  else fc

theorem exitStackStep_eq {μ : Type} (acc : BatchRevertResult μ)
    (cr : LLMClient μ × LLMRevert) :
    exitStackStep acc cr
      = { finalClients := revertedClient cr :: acc.finalClients
          attempted := acc.attempted ++ [cr.1]
          raised := acc.raised ++ (revertFailure cr).toList
          logs := acc.logs } := by
  simp only [exitStackStep, revertedClient, revertFailure]
  cases applyLLMRevert cr.2 cr.1 <;> simp

theorem exitStackFold_spec {μ : Type} :
    ∀ (l : List (LLMClient μ × LLMRevert)) (acc : BatchRevertResult μ),
      (l.foldl exitStackStep acc).attempted = acc.attempted ++ l.map Prod.fst
      ∧ (l.foldl exitStackStep acc).raised = acc.raised ++ l.filterMap revertFailure
      ∧ (l.foldl exitStackStep acc).finalClients
          = (l.map revertedClient).reverse ++ acc.finalClients
      ∧ (l.foldl exitStackStep acc).logs = acc.logs := by
  intro l
  induction l with
  | nil => intro acc; simp
  | cons cr rest ih =>
    intro acc
    rw [List.foldl_cons, exitStackStep_eq]
    obtain ⟨ih1, ih2, ih3, ih4⟩ := ih
      { finalClients := revertedClient cr :: acc.finalClients
        attempted := acc.attempted ++ [cr.1]
        raised := acc.raised ++ (revertFailure cr).toList
        logs := acc.logs }
    refine ⟨?_, ?_, ?_, ?_⟩
    · rw [ih1]; simp
    · rw [ih2]
      cases hrf : revertFailure cr <;> simp [List.filterMap_cons, hrf]
    · rw [ih3]; simp
    · exact ih4

theorem uninstrument_fold_logs {μ : Type} (setFails : String → Bool) :
    ∀ (origs : List (String × μ)) (q : ToolProvider μ) (ls : List String),
      (origs.foldl
        (fun acc kv =>
          if setFails kv.1 then
            (acc.1, acc.2 ++ ["Failed to restore original function " ++ kv.1])
          else (setAttr acc.1 kv.1 kv.2, acc.2)) (q, ls)).2
      = ls ++ (origs.filter (fun kv => setFails kv.1)).map
          (fun kv => "Failed to restore original function " ++ kv.1) := by
  intro origs
  induction origs with
  | nil => intro q ls; simp
  | cons kv rest ih =>
    intro q ls
    rw [List.foldl_cons]
    by_cases hf : setFails kv.1
    · simp only [hf, if_true, List.filter_cons]
      rw [ih]
      simp [hf]
    · simp only [hf, if_false, List.filter_cons]
      rw [ih]
      simp [hf]

/-- Claim C7 (amended): a collection of clients is instrumented
independently, one revert handle per client (`instrument_llm_provider_many`
is the element-wise install); exiting the combined handle reverts every
client in reverse order of installation, and every individual revert is
attempted even when an earlier one failed.  However, failures on this path
are not logged: `uninstrument_context` logs nothing, and `ExitStack`
re-raises the collected exceptions to the invoker after the unwind ends.
Within one tool provider's revert, by contrast, each per-method restore
failure is logged individually and swallowed, and the remaining restores
still run. -/
theorem C7_batch_revert {μ ν : Type} (wrap : μ → μ) (cs : List (LLMClient μ))
    (items : List (LLMClient μ × LLMRevert)) (setFails : String → Bool)
    (p : ToolProvider ν) (origs : List (String × ν)) :
    instrument_llm_provider_many wrap cs = cs.map (instrument_llm_provider_one wrap)
    ∧ (exitStackRevert items).attempted = (items.map Prod.fst).reverse
    ∧ (exitStackRevert items).finalClients = items.map revertedClient
    ∧ (exitStackRevert items).raised = items.reverse.filterMap revertFailure
    ∧ (exitStackRevert items).logs = []
    ∧ (uninstrument_provider setFails p origs).2
        = (origs.filter (fun kv => setFails kv.1)).map
            (fun kv => "Failed to restore original function " ++ kv.1) := by
  obtain ⟨h1, h2, h3, h4⟩ := exitStackFold_spec items.reverse
    { finalClients := [], attempted := [], raised := [], logs := [] }
  refine ⟨rfl, ?_, ?_, ?_, ?_, ?_⟩
  · simp only [exitStackRevert]
    rw [h1]
    simp
  · simp only [exitStackRevert]
    rw [h3]
    simp
  · simp only [exitStackRevert]
    rw [h2]
    simp
  · simp only [exitStackRevert]
    rw [h4]
  · simp only [uninstrument_provider]
    rw [uninstrument_fold_logs]
    simp

/-- Counterexample to C7 as stated: a batch of two instrumented clients
where the second (last-installed) client's stored original was deleted
externally before the combined revert runs.  The unwind attempts both
reverts — the first-installed client is still restored — but the failure is
not logged: the log list is empty and the exception is collected to be
re-raised to the invoker instead. -/
theorem C7_counterexample :
    (exitStackRevert [((⟨true, 100, some 1⟩ : LLMClient Nat), LLMRevert.uninstrument),
        ((⟨true, 200, none⟩ : LLMClient Nat), LLMRevert.uninstrument)]).logs = []
    ∧ (exitStackRevert [((⟨true, 100, some 1⟩ : LLMClient Nat), LLMRevert.uninstrument),
        ((⟨true, 200, none⟩ : LLMClient Nat), LLMRevert.uninstrument)]).raised = [()]
    ∧ (exitStackRevert [((⟨true, 100, some 1⟩ : LLMClient Nat), LLMRevert.uninstrument),
        ((⟨true, 200, none⟩ : LLMClient Nat), LLMRevert.uninstrument)]).finalClients
      = [⟨false, 1, none⟩, ⟨true, 200, none⟩] := by
  exact ⟨rfl, rfl, rfl⟩

theorem find?_replace {μ : Type} (k : String) (v : μ) :
    ∀ (l : List (String × μ)) (n : String),
      (l.map (fun kv => if kv.1 = k then (k, v) else kv)).find? (fun kv => kv.1 = n)
        = if n = k then (l.find? (fun kv => kv.1 = k)).map (fun _ => (k, v))
          else l.find? (fun kv => kv.1 = n) := by
  intro l
  induction l with
  | nil => intro n; by_cases h : n = k <;> simp [h]
  | cons kv rest ih =>
    intro n
    by_cases hk : kv.1 = k
    · by_cases hn : n = k
      · subst hn
        rw [if_pos rfl]
        rw [List.map_cons, if_pos hk]
        rw [List.find?_cons_of_pos _ (by simp),
          List.find?_cons_of_pos _ (by simp [hk])]
        rfl
      · rw [if_neg hn]
        rw [List.map_cons, if_pos hk]
        have hkn : ¬ kv.1 = n := by rw [hk]; exact fun h => hn h.symm
        have hkn2 : ¬ k = n := fun h => hn h.symm
        rw [List.find?_cons_of_neg _ (by simpa using hkn2),
          List.find?_cons_of_neg _ (by simpa using hkn)]
        rw [ih n, if_neg hn]
    · rw [List.map_cons, if_neg hk]
      by_cases hn : n = k
      · subst hn
        have hkn : ¬ kv.1 = n := hk
        rw [if_pos rfl]
        rw [List.find?_cons_of_neg _ (by simpa using hkn),
          List.find?_cons_of_neg _ (by simpa using hkn)]
        rw [ih n, if_pos rfl]
      · by_cases hm : kv.1 = n
        · rw [if_neg hn]
          rw [List.find?_cons_of_pos _ (by simpa using hm),
            List.find?_cons_of_pos _ (by simpa using hm)]
        · rw [if_neg hn]
          rw [List.find?_cons_of_neg _ (by simpa using hm),
            List.find?_cons_of_neg _ (by simpa using hm)]
          rw [ih n, if_neg hn]

theorem getAttr_setAttr {μ : Type} (p : ToolProvider μ) (k : String) (v : μ) (n : String) :
    getAttr (setAttr p k v) n = if n = k then some v else getAttr p n := by
  simp only [getAttr, setAttr]
  by_cases hf : (p.methods.find? (fun kv => kv.1 = k)).isSome
  · rw [if_pos hf]
    simp only
    rw [find?_replace]
    by_cases hnk : n = k
    · rw [if_pos hnk, if_pos hnk]
      obtain ⟨kv, hkv⟩ := Option.isSome_iff_exists.mp hf
      rw [hkv]
      rfl
    · rw [if_neg hnk, if_neg hnk]
  · rw [if_neg hf]
    simp only
    rw [List.find?_append]
    by_cases hnk : n = k
    · subst hnk
      have hnone : p.methods.find? (fun kv => kv.1 = n) = none :=
        Option.not_isSome_iff_eq_none.mp hf
      rw [if_pos rfl, hnone]
      simp
    · rw [if_neg hnk]
      cases hfind : p.methods.find? (fun kv => kv.1 = n) with
      | some kv => simp [hfind]
      | none =>
        have : ¬ (k = n) := fun h => hnk h.symm
        simp [hfind, this]

theorem getAttr_restoreFold {μ : Type} :
    ∀ (origs : List (String × μ)) (p : ToolProvider μ) (n : String),
      (origs.map Prod.fst).Nodup →
      getAttr (restoreFold origs p) n
        = match origs.find? (fun kv => kv.1 = n) with
          | some kv => some kv.2
          | none => getAttr p n := by
  intro origs
  induction origs with
  | nil => intro p n _; rfl
  | cons kv rest ih =>
    intro p n hnd
    rw [List.map_cons, List.nodup_cons] at hnd
    obtain ⟨hmem, hnd2⟩ := hnd
    simp only [restoreFold, List.foldl_cons] at ih ⊢
    rw [ih (setAttr p kv.1 kv.2) n hnd2]
    by_cases hn : kv.1 = n
    · have hrest : rest.find? (fun kv2 => kv2.1 = n) = none := by
        refine List.find?_eq_none.mpr ?_
        intro x hx
        simp only [decide_eq_true_eq]
        intro hx1
        have hx2 : x.1 ∈ rest.map Prod.fst := List.mem_map_of_mem Prod.fst hx
        rw [hx1, ← hn] at hx2
        exact hmem hx2
      rw [hrest, List.find?_cons_of_pos _ (by simpa using hn)]
      rw [getAttr_setAttr, if_pos hn.symm]
    · rw [List.find?_cons_of_neg _ (by simpa using hn)]
      rw [getAttr_setAttr, if_neg (fun h => hn h.symm)]

theorem instrument_fold_shift {μ : Type} :
    ∀ (cs : List (ToolCfg μ)) (p : ToolProvider μ) (os : List (String × μ)),
      (∀ c ∈ cs, os.find? (fun kv => kv.1 = c.name) = none) →
      (cs.map ToolCfg.name).Nodup →
      cs.foldl instrument_single_tool (p, os)
        = ((cs.foldl instrument_single_tool (p, [])).1,
           os ++ (cs.foldl instrument_single_tool (p, [])).2) := by
  intro cs
  induction cs with
  | nil => intro p os _ _; simp
  | cons c rest ih =>
    intro p os hdisj hnd
    rw [List.map_cons, List.nodup_cons] at hnd
    obtain ⟨hmem, hnd2⟩ := hnd
    simp only [List.foldl_cons, instrument_single_tool]
    cases hg : getAttr p c.name with
    | none =>
      exact ih p os (fun c2 hc2 => hdisj c2 (List.mem_cons_of_mem c hc2)) hnd2
    | some orig =>
      have hosnone : os.find? (fun kv => kv.1 = c.name) = none :=
        hdisj c (List.mem_cons_self c rest)
      have hos : dictInsert os c.name orig = os ++ [(c.name, orig)] := by
        simp [dictInsert, hosnone]
      have hnil : dictInsert ([] : List (String × μ)) c.name orig = [(c.name, orig)] := by
        simp [dictInsert]
      simp only [hos, hnil]
      have hd1 : ∀ c2 ∈ rest,
          (os ++ [(c.name, orig)]).find? (fun kv => kv.1 = c2.name) = none := by
        intro c2 hc2
        have hneq : ¬ (c.name = c2.name) := by
          intro h
          apply hmem
          rw [h]
          exact List.mem_map_of_mem ToolCfg.name hc2
        rw [List.find?_append, hdisj c2 (List.mem_cons_of_mem c hc2)]
        simp [hneq]
      have hd2 : ∀ c2 ∈ rest,
          ([(c.name, orig)] : List (String × μ)).find? (fun kv => kv.1 = c2.name) = none := by
        intro c2 hc2
        have hneq : ¬ (c.name = c2.name) := by
          intro h
          apply hmem
          rw [h]
          exact List.mem_map_of_mem ToolCfg.name hc2
        simp [hneq]
      rw [ih (setAttr p c.name c.instrumented_function) (os ++ [(c.name, orig)]) hd1 hnd2,
        ih (setAttr p c.name c.instrumented_function) [(c.name, orig)] hd2 hnd2]
      simp

theorem instrument_fold_spec {μ : Type} :
    ∀ (cs : List (ToolCfg μ)) (p : ToolProvider μ),
      (cs.map ToolCfg.name).Nodup →
      (∀ n, match (cs.foldl instrument_single_tool (p, [])).2.find?
              (fun kv => kv.1 = n) with
            | some kv => getAttr p n = some kv.2
            | none => getAttr (cs.foldl instrument_single_tool (p, [])).1 n = getAttr p n)
      ∧ ((cs.foldl instrument_single_tool (p, [])).2.map Prod.fst).Nodup
      ∧ (∀ k ∈ (cs.foldl instrument_single_tool (p, [])).2.map Prod.fst,
          k ∈ cs.map ToolCfg.name) := by
  intro cs
  induction cs with
  | nil =>
    intro p _
    refine ⟨fun n => ?_, List.nodup_nil, fun k hk => absurd hk (by simp)⟩
    simp
  | cons c rest ih =>
    intro p hnd
    rw [List.map_cons, List.nodup_cons] at hnd
    obtain ⟨hmem, hnd2⟩ := hnd
    simp only [List.foldl_cons, instrument_single_tool]
    cases hg : getAttr p c.name with
    | none =>
      obtain ⟨a1, a2, a3⟩ := ih p hnd2
      exact ⟨a1, a2, fun k hk => List.mem_cons_of_mem _ (a3 k hk)⟩
    | some orig =>
      have hnil : dictInsert ([] : List (String × μ)) c.name orig = [(c.name, orig)] := by
        simp [dictInsert]
      simp only [hnil]
      have hd2 : ∀ c2 ∈ rest,
          ([(c.name, orig)] : List (String × μ)).find? (fun kv => kv.1 = c2.name) = none := by
        intro c2 hc2
        have hneq : ¬ (c.name = c2.name) := by
          intro h
          apply hmem
          rw [h]
          exact List.mem_map_of_mem ToolCfg.name hc2
        simp [hneq]
      rw [instrument_fold_shift rest (setAttr p c.name c.instrumented_function)
        [(c.name, orig)] hd2 hnd2]
      obtain ⟨a1, a2, a3⟩ := ih (setAttr p c.name c.instrumented_function) hnd2
      refine ⟨?_, ?_, ?_⟩
      · intro n
        simp only [List.singleton_append]
        by_cases hcn : c.name = n
        · rw [List.find?_cons_of_pos _ (by simpa using hcn)]
          rw [← hcn]
          exact hg
        · rw [List.find?_cons_of_neg _ (by simpa using hcn)]
          have b1 := a1 n
          cases hD : (rest.foldl instrument_single_tool
              (setAttr p c.name c.instrumented_function, [])).2.find?
              (fun kv => kv.1 = n) with
          | some kv =>
            rw [hD] at b1
            simp only at b1
            rw [getAttr_setAttr, if_neg (fun h => hcn h.symm)] at b1
            simp only
            exact b1
          | none =>
            rw [hD] at b1
            simp only at b1
            rw [getAttr_setAttr, if_neg (fun h => hcn h.symm)] at b1
            simp only
            exact b1
      · simp only [List.singleton_append, List.map_cons, List.nodup_cons]
        refine ⟨fun hin => hmem (a3 c.name hin), a2⟩
      · intro k hk
        simp only [List.singleton_append, List.map_cons, List.mem_cons] at hk
        rcases hk with hk | hk
        · rw [hk]
          exact List.mem_cons_self c.name (rest.map ToolCfg.name)
        · exact List.mem_cons_of_mem _ (a3 k hk)

theorem uninstrument_provider_no_fail {μ : Type} :
    ∀ (origs : List (String × μ)) (p : ToolProvider μ),
      uninstrument_provider (fun _ => false) p origs
        = ({ restoreFold origs p with is_instrumented_by_logfire_tools := false }, []) := by
  intro origs
  induction origs with
  | nil => intro p; rfl
  | cons kv rest ih =>
    intro p
    simp only [uninstrument_provider, restoreFold, List.foldl_cons] at ih ⊢
    simpa using ih (setAttr p kv.1 kv.2)

/-- Claim C3: calling the instrument operation on a target whose
instrumented flag is already set is a no-op for every target kind — LLM
client, tool provider, and FunctionCall class: the target (patched method
and stored original included) is returned unchanged, and where a revert
handle is returned it is the trivial one (`nullcontext`), whose invocation
changes nothing.  Hence a target is never wrapped twice. -/
theorem C3_instrument_idempotent {μ ν ξ : Type} (wrap : μ → μ) (c : LLMClient μ)
    (hc : c.is_instrumented_by_logfire = true)
    (configs : List (ToolCfg ν)) (p : ToolProvider ν)
    (hp : p.is_instrumented_by_logfire_tools = true)
    (mkInstr : ξ → ξ) (fc : FunctionCallClass ξ) (ex : ξ)
    (hfe : fc.execute = some ex) (hf : fc.is_instrumented_by_logfire = true) :
    instrument_llm_provider_one wrap c = (c, LLMRevert.nullcontext)
    ∧ (∀ d : LLMClient μ, applyLLMRevert LLMRevert.nullcontext d = Except.ok d)
    ∧ instrument_tool_provider configs p = (p, ToolRevert.nullcontext)
    ∧ (∀ (q : ToolProvider ν) (sf : String → Bool),
        applyToolRevert sf ToolRevert.nullcontext q = (q, []))
    ∧ instrument_function_call mkInstr fc = Except.ok fc := by
  refine ⟨?_, fun d => rfl, ?_, fun q sf => rfl, ?_⟩
  · simp [instrument_llm_provider_one, hc]
  · simp [instrument_tool_provider, hp]
  · simp [instrument_function_call, hfe, hf]

/-- Witness for C3 at concrete already-instrumented targets of each kind. -/
theorem C3_witness :
    instrument_llm_provider_one (fun m : Nat => m + 100) ⟨true, 7, some 3⟩
      = (⟨true, 7, some 3⟩, LLMRevert.nullcontext)
    ∧ instrument_tool_provider [⟨"duckduckgo_search", (99 : Nat)⟩]
        ⟨true, [("duckduckgo_search", 10)]⟩
      = (⟨true, [("duckduckgo_search", 10)]⟩, ToolRevert.nullcontext)
    ∧ instrument_function_call (fun m : Nat => m + 1) ⟨some 5, true, some 5⟩
      = Except.ok ⟨some 5, true, some 5⟩ := by
  have h := C3_instrument_idempotent (fun m : Nat => m + 100) ⟨true, 7, some 3⟩ rfl
    [⟨"duckduckgo_search", (99 : Nat)⟩] ⟨true, [("duckduckgo_search", 10)]⟩ rfl
    (fun m : Nat => m + 1) ⟨some 5, true, some 5⟩ 5 rfl rfl
  exact ⟨h.1, h.2.2.1, h.2.2.2.2⟩

/-- Claim C6: after instrument followed by invoking the returned revert
handle, the target again holds the exact original callable (the very same
value, i.e. reference equality), the instrumented flag is cleared — so the
target can be re-instrumented, since the flag is all the install branch
checks — and the target is indistinguishable from a never-instrumented one.
For the LLM client the reverted state is exactly the original client; for
the tool provider every attribute is back to its original value and the
flag is cleared.  (A never-instrumented client carries no stored original,
the provider's attribute names and the shipped config lists have unique
names, and a fresh FunctionCall class has no stored original.) -/
theorem C6_revert_restores {μ ν ξ : Type} (wrap : μ → μ) (c : LLMClient μ)
    (hc : c.is_instrumented_by_logfire = false)
    (hco : c.original_request_method = none)
    (configs : List (ToolCfg ν)) (p : ToolProvider ν)
    (hp : p.is_instrumented_by_logfire_tools = false)
    (hnames : (configs.map ToolCfg.name).Nodup)
    (mkInstr : ξ → ξ) (fc : FunctionCallClass ξ) (ex : ξ)
    (hfe : fc.execute = some ex) (hfflag : fc.is_instrumented_by_logfire = false)
    (hforig : fc.original_execute = none) :
    (instrument_llm_provider_one wrap c).2 = LLMRevert.uninstrument
    ∧ (instrument_llm_provider_one wrap c).1.request = wrap c.request
    ∧ applyLLMRevert (instrument_llm_provider_one wrap c).2
        (instrument_llm_provider_one wrap c).1 = Except.ok c
    ∧ (∀ n, getAttr (applyToolRevert (fun _ => false)
          (instrument_tool_provider configs p).2
          (instrument_tool_provider configs p).1).1 n = getAttr p n)
    ∧ (applyToolRevert (fun _ => false) (instrument_tool_provider configs p).2
          (instrument_tool_provider configs p).1).1.is_instrumented_by_logfire_tools
        = false
    ∧ (instrument_function_call mkInstr fc).map uninstrument_function_call
        = Except.ok fc := by
  have hTool : applyToolRevert (fun _ => false) (instrument_tool_provider configs p).2
      (instrument_tool_provider configs p).1
      = ({ restoreFold
            (configs.foldl instrument_single_tool
              ({ p with is_instrumented_by_logfire_tools := true }, [])).2
            (configs.foldl instrument_single_tool
              ({ p with is_instrumented_by_logfire_tools := true }, [])).1
          with is_instrumented_by_logfire_tools := false }, []) := by
    simp only [instrument_tool_provider, hp]
    simp only [Bool.false_eq_true, if_false, applyToolRevert]
    exact uninstrument_provider_no_fail _ _
  obtain ⟨a1, a2, a3⟩ :=
    instrument_fold_spec configs { p with is_instrumented_by_logfire_tools := true } hnames
  refine ⟨?_, ?_, ?_, ?_, ?_, ?_⟩
  · simp [instrument_llm_provider_one, hc]
  · simp [instrument_llm_provider_one, hc]
  · obtain ⟨cb, creq, corig⟩ := c
    simp only at hc hco
    subst hc
    subst hco
    simp [instrument_llm_provider_one, applyLLMRevert]
  · intro n
    rw [hTool]
    show getAttr (restoreFold
        (configs.foldl instrument_single_tool
          ({ p with is_instrumented_by_logfire_tools := true }, [])).2
        (configs.foldl instrument_single_tool
          ({ p with is_instrumented_by_logfire_tools := true }, [])).1) n = getAttr p n
    rw [getAttr_restoreFold _ _ n a2]
    have b1 := a1 n
    cases hD : (configs.foldl instrument_single_tool
        ({ p with is_instrumented_by_logfire_tools := true }, [])).2.find?
        (fun kv => kv.1 = n) with
    | some kv =>
      rw [hD] at b1
      simp only at b1 ⊢
      exact b1.symm
    | none =>
      rw [hD] at b1
      simp only at b1 ⊢
      exact b1
  · rw [hTool]
  · obtain ⟨fce, fcb, fco⟩ := fc
    simp only at hfe hfflag hforig
    subst hfe
    subst hfflag
    subst hforig
    simp [instrument_function_call, uninstrument_function_call, Except.map]

/-- Witness for C6: a concrete client and a concrete tool provider are
instrumented and reverted; the client is restored exactly and the
provider's patched method again refers to the original callable. -/
theorem C6_witness :
    applyLLMRevert (instrument_llm_provider_one (fun m : Nat => m + 100) ⟨false, 7, none⟩).2
        (instrument_llm_provider_one (fun m : Nat => m + 100) ⟨false, 7, none⟩).1
      = Except.ok ⟨false, 7, none⟩
    ∧ getAttr (applyToolRevert (fun _ => false)
        (instrument_tool_provider [⟨"duckduckgo_search", (99 : Nat)⟩]
          ⟨false, [("duckduckgo_search", 10), ("other_tool", 3)]⟩).2
        (instrument_tool_provider [⟨"duckduckgo_search", (99 : Nat)⟩]
          ⟨false, [("duckduckgo_search", 10), ("other_tool", 3)]⟩).1).1
        "duckduckgo_search" = some 10 := by
  have h := C6_revert_restores (fun m : Nat => m + 100) ⟨false, 7, none⟩ rfl rfl
    [⟨"duckduckgo_search", (99 : Nat)⟩]
    ⟨false, [("duckduckgo_search", 10), ("other_tool", 3)]⟩ rfl (by decide)
    (fun m : Nat => m + 1) ⟨some 5, false, none⟩ 5 rfl rfl rfl
  refine ⟨h.2.2.1, ?_⟩
  rw [h.2.2.2.1 "duckduckgo_search"]
  rfl

end Logfire
